import Mathlib

/-!
Shallow embedding of the arbitrage-dashboard logic of this repository.

The embedded code is the client-side computation of the dashboard page:
the watchlist arbitrage calculation (`WatchlistView`), the unified
cross-venue market table with its deduplication and matching pass
(`UnifiedMarketsTable`), and the free-text search filter of the main
dashboard (`filteredOpportunities`).  Prices are modelled as rationals,
JavaScript strings as Lean strings (with an explicit ASCII lowercase
map and substring test mirroring `toLowerCase` / `includes`), and the
stable `Array.prototype.sort` as a stable insertion sort.  Fields that
are only ever rendered (slugs, chart data, timestamps) are omitted.
-/

/-- Lowercase one character in the ASCII range, as the source's
`toLowerCase` does for the ASCII titles and queries it is applied to. -/
def lowerCh (c : Char) : Char :=
  if 'A' ≤ c ∧ c ≤ 'Z' then Char.ofNat (c.toNat + 32) else c

/-- Character sequence of a string, lowercased. -/
def lowerStr (s : String) : List Char := s.data.map lowerCh

/-- Bool test that the second character list is a leading segment of the
first, mirroring `String.prototype.startsWith`. -/
def startsWithCh : List Char → List Char → Bool
  | _, [] => true
  | [], _ :: _ => false
  | c :: cs, d :: ds => c == d && startsWithCh cs ds

/-- Bool substring test, mirroring `String.prototype.includes`: the
needle occurs somewhere inside the haystack (second argument). -/
def includesCh (needle : List Char) : List Char → Bool
  | [] => startsWithCh [] needle
  | c :: rest => startsWithCh (c :: rest) needle || includesCh needle rest

/-- Case-insensitive `includes` against an already-lowercased query,
as in `field.toLowerCase().includes(query)`. -/
def lcIncludes (hay : String) (query : List Char) : Bool :=
  includesCh query (lowerStr hay)

/-- Semantics of the JavaScript `x || d` fallback for a string-valued
field that may be missing: a missing or empty string falls back to `d`. -/
def orFalsy (o : Option String) (d : String) : String :=
  match o with
  | some s => if s = "" then d else s
  | none => d

/-- Semantics of the JavaScript `x || null` for a string-valued field:
a missing or empty string becomes `none`. -/
def orNull (o : Option String) : Option String :=
  match o with
  | some s => if s = "" then none else some s
  | none => none

/-- Stable insertion into a list ordered by the Bool relation `le`,
where `le a b` means the comparator allows `a` to come before `b`. -/
def insertBy (le : α → α → Bool) (a : α) : List α → List α
  | [] => [a]
  | x :: xs => if le a x then a :: x :: xs else x :: insertBy le a xs

/-- Stable sort by the Bool relation `le`; models the stable
`Array.prototype.sort` of the source for a fixed comparator. -/
def sortBy (le : α → α → Bool) : List α → List α
  | [] => []
  | a :: as => insertBy le a (sortBy le as)

/-! ### The watchlist arbitrage calculation (`WatchlistView`) -/

/-- One venue's side of a cross-venue market match, as delivered to the
watchlist by the all-markets API (`MarketMatch.polymarket` /
`MarketMatch.kalshi` in the source). -/
structure MarketSide where
  id : String
  name : Option String
  yes_price : ℚ
  no_price : ℚ
  url : Option String
deriving DecidableEq

/-- A matched pair of markets (`MarketMatch` in the source): the same
event priced on Polymarket (venue A) and Kalshi (venue B). -/
structure MarketMatch where
  normalized_name : String
  game_date : Option String
  sport : Option String
  market_for_team : Option String
  away_team : Option String
  home_team : Option String
  polymarket : MarketSide
  kalshi : MarketSide
  price_diff_yes : ℚ
  price_diff_no : Option ℚ
deriving DecidableEq

/-- A computed watchlist entry: the source spreads the match record and
adds the chosen strategy, its cost, profit, profit percent and the buy
side for each venue. -/
structure WatchOpp where
  base : MarketMatch
  strategy : Nat
  cost : ℚ
  profit : ℚ
  profitPercent : ℚ
  polyBuy : String
  polyPrice : ℚ
  kalshiBuy : String
  kalshiPrice : ℚ
deriving DecidableEq

/-- The per-match arbitrage calculation of `WatchlistView`: evaluate
strategy 1 (buy Polymarket YES + Kalshi NO, cost `polyYes + kalshiNo`)
and strategy 2 (buy Polymarket NO + Kalshi YES, cost `polyNo +
kalshiYes`), each with profit `1.0 - cost`, and keep the better one. -/
def calcOpp (m : MarketMatch) : WatchOpp :=
  let polyYes := m.polymarket.yes_price
  let polyNo := m.polymarket.no_price
  let kalshiYes := m.kalshi.yes_price
  let kalshiNo := m.kalshi.no_price
  let cost1 := polyYes + kalshiNo
  let profit1 := 1 - cost1
  let cost2 := polyNo + kalshiYes
  let profit2 := 1 - cost2
  let bestProfit := max profit1 profit2
  let strategy := if profit1 ≥ profit2 then 1 else 2
  { base := m
    strategy := strategy
    cost := if strategy = 1 then cost1 else cost2
    profit := bestProfit
    profitPercent := bestProfit * 100
    polyBuy := if strategy = 1 then "YES" else "NO"
    polyPrice := if strategy = 1 then polyYes else polyNo
    kalshiBuy := if strategy = 1 then "NO" else "YES"
    kalshiPrice := if strategy = 1 then kalshiNo else kalshiYes }

/-- Comparator of the watchlist sort `(a, b) => b.profit - a.profit`:
`a` may come before `b` exactly when the comparator is non-positive. -/
def profitLe (a b : WatchOpp) : Bool := decide (b.profit ≤ a.profit)

/-- The watchlist pipeline of `WatchlistView`: map every match to its
best-strategy opportunity, keep only the profitable ones
(`opp.profit > 0`), and sort by profit descending. -/
def watchlistOpportunities (ms : List MarketMatch) : List WatchOpp :=
  sortBy profitLe ((ms.map calcOpp).filter (fun o => decide (0 < o.profit)))

/-- Suspicion flag of the source: a profit percent above 15 might
indicate flipped sides; the entry is styled as a warning, not removed. -/
def isSuspicious (profitPercent : ℚ) : Bool := decide (15 < profitPercent)

/-- Modelled from the spec: the fee model of the arbitrage detector
(§4.4), which is not implemented anywhere in this repository's code.
Each venue has an independent fee rate applied to the gross profit,
and the net profit is the gross profit minus both fee amounts. -/
def specNetProfit (feeA feeB gross : ℚ) : ℚ := gross - (feeA * gross + feeB * gross)

/-- Modelled from the spec: `profit_bps = net_profit × 10,000`. -/
def specProfitBps (feeA feeB gross : ℚ) : ℚ := specNetProfit feeA feeB gross * 10000

/-! ### The unified market table (`UnifiedMarketsTable`) -/

/-- A normalized market row of either venue (`MarketItem` in the
source).  Presentation-only fields (slug, series, end date) are
omitted; every field read by the table logic is kept. -/
structure MarketItem where
  id : String
  name : String
  normalized_name : Option String
  away_team : Option String
  home_team : Option String
  game_date : Option String
  sport : Option String
  yes_price : ℚ
  no_price : ℚ
  category : String
  market_type : Option String
deriving DecidableEq

/-- The market-type tab selected above the table. -/
inductive MarketTypeFilter
  | moneyline | spread | over_under | props | all
deriving DecidableEq

/-- String constant for the player-prop market-type test. -/
def playerPropTag : String := "player_prop"

/-- String constant for the moneyline market type. -/
def gameWinnerTag : String := "game_winner"

/-- String constant for the spread market type. -/
def spreadTag : String := "spread"

/-- String constant for the over/under market type. -/
def overUnderTag : String := "over_under"

/-- Type filter of the table: compare the market's `market_type` (with
`||` fallback to the empty string) against the selected tab. -/
def matchesMarketType (f : MarketTypeFilter) (market : MarketItem) : Bool :=
  let marketType := orFalsy market.market_type ""
  match f with
  | .moneyline => marketType == gameWinnerTag
  | .spread => marketType == spreadTag
  | .over_under => marketType == overUnderTag
  | .props => startsWithCh marketType.data playerPropTag.data
  | .all => true

/-- Player-prop suffix of the deduplication key: for prop markets the
first 30 characters of the raw name are appended so different players
are not merged; other markets contribute the empty suffix. -/
def propKeyOf (m : MarketItem) : String :=
  match m.market_type with
  | some mt =>
      if startsWithCh mt.data playerPropTag.data
        then "-" ++ String.mk (m.name.data.take 30) else ""
  | none => ""

/-- Deduplication key used for both venues: normalized name (falling
back to the raw name), game date, sport and market type, joined with
dashes, plus the player-prop suffix. -/
def dedupKey (m : MarketItem) : String :=
  orFalsy m.normalized_name m.name ++ "-" ++ orFalsy m.game_date "" ++ "-" ++
    orFalsy m.sport "" ++ "-" ++ orFalsy m.market_type "" ++ propKeyOf m

/-- First-seen-wins deduplication: walk the list keeping a market only
when its key has not been seen, mirroring the source's insertion-order
`Map` keyed by `dedupKey`. -/
def dedupByKey : List MarketItem → List String → List MarketItem
  | [], _ => []
  | m :: ms, seen =>
    if dedupKey m ∈ seen then dedupByKey ms seen
    else m :: dedupByKey ms (dedupKey m :: seen)

/-- Matching key of the unification pass: normalized name (with raw
name fallback), game date and sport, joined with dashes. -/
def matchKey (m : MarketItem) : String :=
  orFalsy m.normalized_name m.name ++ "-" ++ orFalsy m.game_date "" ++ "-" ++
    orFalsy m.sport ""

/-- A row of the unified table (`UnifiedMarket` in the source). -/
structure UnifiedMarket where
  key : String
  normalizedName : String
  sport : Option String
  gameDate : Option String
  polymarket : Option MarketItem
  kalshi : Option MarketItem
deriving DecidableEq

/-- The source's `dedupedKalshi.find(...)`: first Kalshi market whose
match key equals the Polymarket key and whose id is not yet claimed. -/
def findKalshi (polyKey : String) (used : List String) : List MarketItem → Option MarketItem
  | [] => none
  | k :: ks =>
    if matchKey k = polyKey ∧ k.id ∉ used then some k
    else findKalshi polyKey used ks

/-- Record a claimed Kalshi id, mirroring `usedKalshiIds.add`. -/
def usedAfter (used : List String) : Option MarketItem → List String
  | some k => k.id :: used
  | none => used

/-- Row built for one Polymarket market and its (optional) Kalshi
counterpart. -/
def polyRow (poly : MarketItem) (mk : Option MarketItem) : UnifiedMarket :=
  { key := matchKey poly
    normalizedName := orFalsy poly.normalized_name poly.name
    sport := orNull poly.sport
    gameDate := orNull poly.game_date
    polymarket := some poly
    kalshi := mk }

/-- First loop of the unification pass: for each deduplicated
Polymarket market, claim the first unclaimed Kalshi market with the
same match key and emit a row; returns the rows and the final set of
claimed Kalshi ids. -/
def buildRows (ks : List MarketItem) : List MarketItem → List String → List UnifiedMarket × List String
  | [], used => ([], used)
  | poly :: polys, used =>
    let mk := findKalshi (matchKey poly) used ks
    let rest := buildRows ks polys (usedAfter used mk)
    (polyRow poly mk :: rest.1, rest.2)

/-- Row for a Kalshi market that no Polymarket market claimed. -/
def kalshiOnlyRow (k : MarketItem) : UnifiedMarket :=
  { key := "kalshi-" ++ k.id
    normalizedName := orFalsy k.normalized_name k.name
    sport := orNull k.sport
    gameDate := orNull k.game_date
    polymarket := none
    kalshi := some k }

/-- Three-valued string comparison standing in for `localeCompare`. -/
def strCmp (s t : String) : Int := if s < t then -1 else if t < s then 1 else 0

/-- Comparator of the final table sort: by sport, then by date, then by
normalized name, with the source's exact short-circuit structure. -/
def unifiedCmp (a b : UnifiedMarket) : Int :=
  if a.sport ≠ b.sport then strCmp (orFalsy a.sport "") (orFalsy b.sport "")
  else if a.gameDate ≠ b.gameDate then strCmp (orFalsy a.gameDate "") (orFalsy b.gameDate "")
  else strCmp a.normalizedName b.normalizedName

/-- Bool form of the table comparator for the stable sort. -/
def unifiedLE (a b : UnifiedMarket) : Bool := decide (unifiedCmp a b ≤ 0)

/-- The whole `UnifiedMarketsTable` computation: filter both catalogs by
the selected market type, deduplicate each by `dedupKey` (first seen
wins), match Polymarket rows to at most one Kalshi market each, append
the unmatched Kalshi markets, and sort. -/
def unifiedMarketsTable (f : MarketTypeFilter) (polyMarkets kalshiMarkets : List MarketItem) : List UnifiedMarket :=
  let polyFiltered := polyMarkets.filter (matchesMarketType f)
  let kalshiFiltered := kalshiMarkets.filter (matchesMarketType f)
  let dedupedPoly := dedupByKey polyFiltered []
  let dedupedKalshi := dedupByKey kalshiFiltered []
  let built := buildRows dedupedKalshi dedupedPoly []
  let kalshiRows := (dedupedKalshi.filter (fun k => decide (k.id ∉ built.2))).map kalshiOnlyRow
  sortBy unifiedLE (built.1 ++ kalshiRows)

/-- The matched pairs visible in a list of table rows: the rows that
carry a market from both venues. -/
def matchedPairs (rows : List UnifiedMarket) : List (MarketItem × MarketItem) :=
  rows.filterMap fun r =>
    match r.polymarket, r.kalshi with
    | some p, some k => some (p, k)
    | _, _ => none

/-- Kalshi ids claimed by a list of rows, in row order. -/
def kalshiIds (rows : List UnifiedMarket) : List String :=
  rows.filterMap fun r => r.kalshi.map fun k => k.id

/-! ### The dashboard search filter (`filteredOpportunities`) -/

/-- One venue's side of a backend arbitrage opportunity. -/
structure ApiMarketRef where
  id : String
  question : String
  yes_price : ℚ
  no_price : ℚ
  url : String
deriving DecidableEq

/-- A backend arbitrage opportunity as consumed by the dashboard
(`ArbitrageOpportunity` in the source). -/
structure ApiOpportunity where
  polymarket : ApiMarketRef
  kalshi : ApiMarketRef
  league : String
  market_type : String
  team : Option String
  price_difference : ℚ
  price_difference_percent : ℚ
  profit_bps : ℚ
  buy_on : String
  sell_on : String
  match_score : ℚ
  match_reason : String
deriving DecidableEq

/-- Retention test of the dashboard search box: an empty query keeps
everything; otherwise the lowercased query must occur in the Polymarket
question, the Kalshi question, the Kalshi id, the league, or the team. -/
def oppMatchesSearch (searchQuery : String) (opp : ApiOpportunity) : Bool :=
  if searchQuery = "" then true
  else
    let query := lowerStr searchQuery
    lcIncludes opp.polymarket.question query ||
    lcIncludes opp.kalshi.question query ||
    lcIncludes opp.kalshi.id query ||
    lcIncludes opp.league query ||
    (match opp.team with
     | some t => lcIncludes t query
     | none => false)

/-- The dashboard's `filteredOpportunities` list. -/
def filteredOpportunities (searchQuery : String) (opps : List ApiOpportunity) : List ApiOpportunity :=
  opps.filter (oppMatchesSearch searchQuery)

/-- Stated from the spec's words, for comparison with the code's
filter: the query is matched against the titles, the league and the
team only (no venue id), case-insensitively, and an empty query keeps
everything. -/
def specSearchMatches (searchQuery : String) (opp : ApiOpportunity) : Bool :=
  if searchQuery = "" then true
  else
    let query := lowerStr searchQuery
    lcIncludes opp.polymarket.question query ||
    lcIncludes opp.kalshi.question query ||
    lcIncludes opp.league query ||
    (match opp.team with
     | some t => lcIncludes t query
     | none => false)

/-! ### Concrete inputs used by counterexamples and witnesses -/

/-- Concrete matched pair carrying the spec's worked fee example:
Polymarket YES at 0.40 and Kalshi NO at 0.50, so strategy 1 costs 0.90
and has gross profit 0.10. -/
def cexFeeMatch : MarketMatch :=
  { normalized_name := "lakers vs celtics"
    game_date := some "2025-12-05"
    sport := some "nba"
    market_for_team := none
    away_team := some "lakers"
    home_team := some "celtics"
    polymarket := { id := "p1", name := none, yes_price := 2/5, no_price := 13/20, url := none }
    kalshi := { id := "k1", name := none, yes_price := 3/5, no_price := 1/2, url := none }
    price_diff_yes := 1/5
    price_diff_no := none }

/-- Concrete matched pair with a large cross-venue price gap (YES gap
0.30, i.e. 30 percent) whose best strategy still loses money:
strategy 1 costs 1.05 and strategy 2 costs 1.35. -/
def cexDiffMatch : MarketMatch :=
  { normalized_name := "heat vs bulls"
    game_date := some "2025-11-20"
    sport := some "nba"
    market_for_team := none
    away_team := some "heat"
    home_team := some "bulls"
    polymarket := { id := "p2", name := none, yes_price := 3/10, no_price := 3/4, url := none }
    kalshi := { id := "k2", name := none, yes_price := 3/5, no_price := 3/4, url := none }
    price_diff_yes := 3/10
    price_diff_no := none }

/-- Concrete matched pair whose best strategy has a 30 percent profit,
above the 15 percent suspicion bound. -/
def cexSuspMatch : MarketMatch :=
  { normalized_name := "sparks vs aces"
    game_date := some "2025-09-01"
    sport := some "wnba"
    market_for_team := none
    away_team := some "sparks"
    home_team := some "aces"
    polymarket := { id := "p3", name := none, yes_price := 2/5, no_price := 3/5, url := none }
    kalshi := { id := "k3", name := none, yes_price := 7/10, no_price := 3/10, url := none }
    price_diff_yes := 3/10
    price_diff_no := none }

/-- Concrete matched pair whose two strategies cost exactly the same
(1.05 each), exercising the tie-break. -/
def cexTieMatch : MarketMatch :=
  { normalized_name := "jets vs bills"
    game_date := some "2025-10-12"
    sport := some "nfl"
    market_for_team := none
    away_team := some "jets"
    home_team := some "bills"
    polymarket := { id := "p4", name := none, yes_price := 2/5, no_price := 3/5, url := none }
    kalshi := { id := "k4", name := none, yes_price := 9/20, no_price := 13/20, url := none }
    price_diff_yes := 1/20
    price_diff_no := none }

/-- Concrete Kalshi market: Lakers to beat the Celtics. -/
def cexKalshiA : MarketItem :=
  { id := "kx-1"
    name := "Will the Lakers beat the Celtics"
    normalized_name := some "lakers vs celtics"
    away_team := some "lakers"
    home_team := some "celtics"
    game_date := some "2025-12-05"
    sport := some "nba"
    yes_price := 3/5
    no_price := 2/5
    category := "sports"
    market_type := some "game_winner" }

/-- Concrete Kalshi market for the same game as `cexKalshiA`, written
from the other team's perspective, with the same prices inverted. -/
def cexKalshiB : MarketItem :=
  { id := "kx-2"
    name := "Will the Celtics beat the Lakers"
    normalized_name := some "lakers vs celtics"
    away_team := some "lakers"
    home_team := some "celtics"
    game_date := some "2025-12-05"
    sport := some "nba"
    yes_price := 2/5
    no_price := 3/5
    category := "sports"
    market_type := some "game_winner" }

/-- Concrete Polymarket market for the same game. -/
def cexPolyA : MarketItem :=
  { id := "px-1"
    name := "Lakers vs Celtics"
    normalized_name := some "lakers vs celtics"
    away_team := some "lakers"
    home_team := some "celtics"
    game_date := some "2025-12-05"
    sport := some "nba"
    yes_price := 2/5
    no_price := 3/5
    category := "sports"
    market_type := some "game_winner" }

/-- Concrete backend opportunity in which the search term occurs only
inside the Kalshi market id (prices are placeholders; the filter never
reads them). -/
def cexSearchOpp : ApiOpportunity :=
  { polymarket :=
      { id := "poly-9"
        question := "Will the Lakers win"
        yes_price := 1
        no_price := 0
        url := "https://example.org/p" }
    kalshi :=
      { id := "KXNBAGAME-LAL"
        question := "Celtics game winner"
        yes_price := 0
        no_price := 1
        url := "https://example.org/k" }
    league := "basketball"
    market_type := "game_winner"
    team := some "Celtics"
    price_difference := 0
    price_difference_percent := 0
    profit_bps := 0
    buy_on := "polymarket"
    sell_on := "kalshi"
    match_score := 1
    match_reason := "team+date exact match" }

/-! ### Lemmas about the stable insertion sort -/

/-- Inserting an element permutes a cons onto the list. -/
theorem insertBy_perm (le : α → α → Bool) (a : α) :
    ∀ l : List α, List.Perm (insertBy le a l) (a :: l)
  | [] => List.Perm.refl _
  | x :: xs => by
    cases hle : le a x with
    | true => simp [insertBy, hle]
    | false =>
      simp only [insertBy, hle, Bool.false_eq_true, if_false]
      exact ((insertBy_perm le a xs).cons x).trans (List.Perm.swap a x xs)

/-- Sorting permutes the list. -/
theorem sortBy_perm (le : α → α → Bool) : ∀ l : List α, List.Perm (sortBy le l) l
  | [] => List.Perm.refl _
  | a :: as => (insertBy_perm le a (sortBy le as)).trans ((sortBy_perm le as).cons a)

/-- Inserting into a pairwise-ordered list keeps it pairwise ordered,
when the Bool relation is transitive and total. -/
theorem insertBy_pairwise (le : α → α → Bool)
    (htrans : ∀ a b c, le a b = true → le b c = true → le a c = true)
    (htotal : ∀ a b, le a b = true ∨ le b a = true) (a : α) :
    ∀ l : List α, l.Pairwise (fun x y => le x y = true) →
      (insertBy le a l).Pairwise (fun x y => le x y = true)
  | [], _ => by simp [insertBy]
  | x :: xs, hp => by
    rcases List.pairwise_cons.mp hp with ⟨hx, hxs⟩
    cases hle : le a x with
    | true =>
      simp only [insertBy, hle, if_true]
      refine List.pairwise_cons.mpr ⟨?_, hp⟩
      intro y hy
      rcases List.mem_cons.mp hy with rfl | hy'
      · exact hle
      · exact htrans a x y hle (hx y hy')
    | false =>
      have hxa : le x a = true := by
        rcases htotal a x with h | h
        · rw [hle] at h; cases h
        · exact h
      simp only [insertBy, hle, Bool.false_eq_true, if_false]
      refine List.pairwise_cons.mpr
        ⟨?_, insertBy_pairwise le htrans htotal a xs hxs⟩
      intro y hy
      rcases List.mem_cons.mp ((insertBy_perm le a xs).mem_iff.mp hy) with rfl | hy'
      · exact hxa
      · exact hx y hy'

/-- The insertion sort is pairwise ordered for a transitive total
Bool relation. -/
theorem sortBy_pairwise (le : α → α → Bool)
    (htrans : ∀ a b c, le a b = true → le b c = true → le a c = true)
    (htotal : ∀ a b, le a b = true ∨ le b a = true) :
    ∀ l : List α, (sortBy le l).Pairwise (fun x y => le x y = true)
  | [] => by simp [sortBy]
  | a :: as => insertBy_pairwise le htrans htotal a _ (sortBy_pairwise le htrans htotal as)

/-- Membership in the watchlist output: an opportunity is retained
exactly when it is the computed opportunity of some input match and its
profit is strictly positive. -/
theorem mem_watchlist_iff (ms : List MarketMatch) (o : WatchOpp) :
    o ∈ watchlistOpportunities ms ↔ o ∈ ms.map calcOpp ∧ 0 < o.profit := by
  unfold watchlistOpportunities
  rw [(sortBy_perm profitLe _).mem_iff, List.mem_filter]
  simp

/-- C2: for every matched pair, the watchlist calculation evaluates the
two strategies (Polymarket YES + Kalshi NO and Polymarket NO + Kalshi
YES), each with gross profit one minus its cost, reports the maximum of
the two profits, and records the buy sides and cost of a strategy whose
gross profit equals the reported profit. -/
theorem watchlist_two_strategies_max (m : MarketMatch) :
    (calcOpp m).profit =
      max (1 - (m.polymarket.yes_price + m.kalshi.no_price))
        (1 - (m.polymarket.no_price + m.kalshi.yes_price))
    ∧ 1 - (calcOpp m).cost = (calcOpp m).profit
    ∧ (((calcOpp m).polyBuy = "YES" ∧ (calcOpp m).kalshiBuy = "NO"
          ∧ (calcOpp m).cost = m.polymarket.yes_price + m.kalshi.no_price)
       ∨ ((calcOpp m).polyBuy = "NO" ∧ (calcOpp m).kalshiBuy = "YES"
          ∧ (calcOpp m).cost = m.polymarket.no_price + m.kalshi.yes_price)) := by
  by_cases h : (1 - (m.polymarket.no_price + m.kalshi.yes_price)
      ≤ 1 - (m.polymarket.yes_price + m.kalshi.no_price))
  · simp [calcOpp, ge_iff_le, h, max_eq_left h]
  · have h' : (1 - (m.polymarket.yes_price + m.kalshi.no_price))
      ≤ 1 - (m.polymarket.no_price + m.kalshi.yes_price) := le_of_not_le h
    simp [calcOpp, ge_iff_le, h, max_eq_right h']

/-- C10: when the two strategies cost exactly the same, the watchlist
calculation selects strategy 1, so the reported buy sides are
Polymarket YES and Kalshi NO and the reported cost is the strategy-1
cost. -/
theorem tie_picks_strategy_one (m : MarketMatch)
    (h : m.polymarket.yes_price + m.kalshi.no_price
        = m.polymarket.no_price + m.kalshi.yes_price) :
    (calcOpp m).strategy = 1 ∧ (calcOpp m).polyBuy = "YES"
      ∧ (calcOpp m).kalshiBuy = "NO"
      ∧ (calcOpp m).cost = m.polymarket.yes_price + m.kalshi.no_price := by
  have h1 : (1 : ℚ) - (m.polymarket.no_price + m.kalshi.yes_price)
      ≤ 1 - (m.polymarket.yes_price + m.kalshi.no_price) := by rw [h]
  simp [calcOpp, ge_iff_le, h1]

/-- Witness for the tie-break theorem at a concrete matched pair whose
two strategies both cost 21/20. -/
theorem tie_picks_strategy_one_witness :
    (calcOpp cexTieMatch).strategy = 1 ∧ (calcOpp cexTieMatch).polyBuy = "YES"
      ∧ (calcOpp cexTieMatch).kalshiBuy = "NO"
      ∧ (calcOpp cexTieMatch).cost
          = cexTieMatch.polymarket.yes_price + cexTieMatch.kalshi.no_price :=
  tie_picks_strategy_one cexTieMatch (by norm_num [cexTieMatch])

/-- C1 (amended): the profit the watchlist reports for a matched pair
is the gross profit — one minus the cost of the chosen strategy — with
no venue fee deducted, and the reported percentage is that profit times
100. -/
theorem watchlist_profit_is_gross (m : MarketMatch) :
    (calcOpp m).profit = 1 - (calcOpp m).cost
    ∧ (calcOpp m).profitPercent = (calcOpp m).profit * 100 := by
  refine ⟨?_, rfl⟩
  by_cases h : (1 - (m.polymarket.no_price + m.kalshi.yes_price)
      ≤ 1 - (m.polymarket.yes_price + m.kalshi.no_price))
  · simp [calcOpp, ge_iff_le, h, max_eq_left h]
  · have h' : (1 - (m.polymarket.yes_price + m.kalshi.no_price))
      ≤ 1 - (m.polymarket.no_price + m.kalshi.yes_price) := le_of_not_le h
    simp [calcOpp, ge_iff_le, h, max_eq_right h']

/-- C1 counterexample: on the spec's own worked example (Polymarket YES
0.40, Kalshi NO 0.50, fees 2 percent and 1 percent) the code reports
the gross profit 0.10, not the spec's net profit 0.097, and the
reported profit scaled to basis points is 1000, not 970. -/
theorem watchlist_profit_no_fees_cex :
    (calcOpp cexFeeMatch).profit = 1/10
    ∧ specNetProfit (2/100) (1/100) (1/10) = 97/1000
    ∧ ¬ (calcOpp cexFeeMatch).profit = specNetProfit (2/100) (1/100) (1/10)
    ∧ ¬ (calcOpp cexFeeMatch).profit * 10000
        = specProfitBps (2/100) (1/100) (1/10) := by
  norm_num [calcOpp, cexFeeMatch, specNetProfit, specProfitBps, max_def]

/-- C3 (amended): a computed opportunity is retained in the watchlist
output exactly when its profit is strictly positive; entries with
non-positive profit are dropped, whatever their price difference. -/
theorem watchlist_retained_iff_profit_positive (ms : List MarketMatch) (o : WatchOpp) :
    o ∈ watchlistOpportunities ms ↔ o ∈ ms.map calcOpp ∧ 0 < o.profit :=
  mem_watchlist_iff ms o

/-- C3 counterexample: a matched pair with a 30 percent YES price gap
(far above the 2 percent minimum-difference default) whose best
strategy loses 0.05 is removed from the output entirely, not surfaced
as a non-profitable entry. -/
theorem watchlist_drops_nonprofitable_cex :
    2 ≤ 100 * cexDiffMatch.price_diff_yes
    ∧ (calcOpp cexDiffMatch).profit < 0
    ∧ watchlistOpportunities [cexDiffMatch] = [] := by
  have hp : (calcOpp cexDiffMatch).profit = -(1/20 : ℚ) := by
    norm_num [calcOpp, cexDiffMatch, max_def]
  refine ⟨by norm_num [cexDiffMatch], by rw [hp]; norm_num, ?_⟩
  norm_num [watchlistOpportunities, List.filter_cons, List.filter_nil, hp,
    sortBy, decide_eq_true_eq]

/-- C6: the watchlist output is sorted by profit in descending order —
every earlier entry's profit is at least every later entry's profit (in
particular this holds for adjacent entries). -/
theorem watchlist_sorted_desc (ms : List MarketMatch) :
    (watchlistOpportunities ms).Pairwise (fun a b => b.profit ≤ a.profit) := by
  have h := sortBy_pairwise profitLe
    (fun a b c hab hbc => by
      simp only [profitLe, decide_eq_true_eq] at hab hbc ⊢
      exact le_trans hbc hab)
    (fun a b => by
      simp only [profitLe, decide_eq_true_eq]
      exact le_total b.profit a.profit)
    ((ms.map calcOpp).filter (fun o => decide (0 < o.profit)))
  exact List.Pairwise.imp (fun hab => of_decide_eq_true hab) h

/-- C7: an opportunity whose profit percent exceeds 15 is flagged as
suspicious by the watchlist, yet still appears in the output list. -/
theorem suspicious_flagged_not_dropped (ms : List MarketMatch) (m : MarketMatch)
    (hm : m ∈ ms) (hp : 15 < (calcOpp m).profitPercent) :
    isSuspicious (calcOpp m).profitPercent = true
      ∧ calcOpp m ∈ watchlistOpportunities ms := by
  refine ⟨decide_eq_true hp, ?_⟩
  rw [mem_watchlist_iff]
  refine ⟨List.mem_map_of_mem _ hm, ?_⟩
  have hpp : (calcOpp m).profitPercent = (calcOpp m).profit * 100 := rfl
  rw [hpp] at hp
  linarith

/-- Witness for the suspicion theorem at a concrete matched pair with a
30 percent profit. -/
theorem suspicious_flagged_not_dropped_witness :
    isSuspicious (calcOpp cexSuspMatch).profitPercent = true
      ∧ calcOpp cexSuspMatch ∈ watchlistOpportunities [cexSuspMatch] :=
  suspicious_flagged_not_dropped [cexSuspMatch] cexSuspMatch
    (List.mem_singleton.mpr rfl)
    (by norm_num [calcOpp, cexSuspMatch, max_def])

/-! ### Lemmas about deduplication and the matching pass -/

/-- Filtering the deduplicated list for one key yields exactly the first
input market carrying that key (and nothing when the key was already
seen before the walk started). -/
theorem dedupByKey_filter (κ : String) :
    ∀ (ms : List MarketItem) (seen : List String),
      (dedupByKey ms seen).filter (fun m => decide (dedupKey m = κ)) =
        if κ ∈ seen then []
        else (ms.find? (fun m => decide (dedupKey m = κ))).toList
  | [], seen => by simp [dedupByKey]
  | m :: ms, seen => by
    by_cases hm : dedupKey m ∈ seen
    · rw [dedupByKey, if_pos hm, dedupByKey_filter κ ms seen]
      by_cases hκ : κ ∈ seen
      · simp [hκ]
      · have hne : ¬ dedupKey m = κ := fun he => hκ (he ▸ hm)
        rw [if_neg hκ, if_neg hκ, List.find?_cons_of_neg _ (by simpa using hne)]
    · rw [dedupByKey, if_neg hm, List.filter_cons,
        dedupByKey_filter κ ms (dedupKey m :: seen)]
      by_cases hmκ : dedupKey m = κ
      · have hmem : κ ∈ dedupKey m :: seen := by
          rw [← hmκ]; exact List.mem_cons_self _ _
        have hκn : ¬ κ ∈ seen := fun hk => hm (hmκ ▸ hk)
        rw [if_pos hmem, if_neg hκn, List.find?_cons_of_pos _ (by simpa using hmκ)]
        simp [hmκ]
      · have hstep : (κ ∈ dedupKey m :: seen) ↔ (κ ∈ seen) := by
          constructor
          · intro hc
            rcases List.mem_cons.mp hc with h | h
            · exact absurd h.symm hmκ
            · exact h
          · exact List.mem_cons_of_mem _
        rw [List.find?_cons_of_neg _ (by simpa using hmκ)]
        by_cases hκ : κ ∈ seen
        · rw [if_pos (hstep.mpr hκ), if_pos hκ]
          simp [hmκ]
        · rw [if_neg (fun hc => hκ (hstep.mp hc)), if_neg hκ]
          simp [hmκ]

/-- The deduplicated list has pairwise-distinct keys, none of which was
seen before the walk started. -/
theorem dedupByKey_keys_nodup :
    ∀ (ms : List MarketItem) (seen : List String),
      ((dedupByKey ms seen).map dedupKey).Nodup
        ∧ ∀ κ ∈ (dedupByKey ms seen).map dedupKey, κ ∉ seen
  | [], seen => by simp [dedupByKey]
  | m :: ms, seen => by
    by_cases hm : dedupKey m ∈ seen
    · rw [dedupByKey, if_pos hm]
      exact dedupByKey_keys_nodup ms seen
    · rw [dedupByKey, if_neg hm]
      obtain ⟨h1, h2⟩ := dedupByKey_keys_nodup ms (dedupKey m :: seen)
      refine ⟨?_, ?_⟩
      · rw [List.map_cons, List.nodup_cons]
        exact ⟨fun hmem => (h2 _ hmem) (List.mem_cons_self _ _), h1⟩
      · intro κ hκ hseen
        rw [List.map_cons] at hκ
        rcases List.mem_cons.mp hκ with rfl | hκ'
        · exact hm hseen
        · exact (h2 κ hκ') (List.mem_cons_of_mem _ hseen)

/-- The deduplicated list itself has no duplicate entries. -/
theorem dedupByKey_nodup (ms : List MarketItem) : (dedupByKey ms []).Nodup :=
  List.Nodup.of_map dedupKey (dedupByKey_keys_nodup ms []).1

/-- Helper: a predicate false on all of a leading segment lets `find?`
skip it. -/
theorem find?_append_of_all_neg (p : MarketItem → Bool) :
    ∀ (l₁ l₂ : List MarketItem), (∀ m ∈ l₁, p m = false) →
      (l₁ ++ l₂).find? p = l₂.find? p
  | [], l₂, _ => rfl
  | m :: l₁, l₂, h => by
    rw [List.cons_append, List.find?_cons_of_neg, find?_append_of_all_neg p l₁ l₂]
    · exact fun x hx => h x (List.mem_cons_of_mem _ hx)
    · simp [h m (List.mem_cons_self _ _)]

/-- C4: given two Kalshi markets for the same game — same canonical
name (after raw-name fallback), date, sport and non-prop market type,
with inverted YES/NO prices — and no earlier market with their
deduplication key, exactly one market with that key survives
deduplication, namely the first of the two in input order. -/
theorem kalshi_dedup_first_seen_wins
    (pre mid post : List MarketItem) (k1 k2 : MarketItem)
    (hname : orFalsy k1.normalized_name k1.name = orFalsy k2.normalized_name k2.name)
    (hdate : orFalsy k1.game_date "" = orFalsy k2.game_date "")
    (hsport : orFalsy k1.sport "" = orFalsy k2.sport "")
    (htype : orFalsy k1.market_type "" = orFalsy k2.market_type "")
    (hprop1 : propKeyOf k1 = "") (hprop2 : propKeyOf k2 = "")
    (_hinv : k1.yes_price = k2.no_price ∧ k1.no_price = k2.yes_price)
    (hfirst : ∀ m ∈ pre, ¬ dedupKey m = dedupKey k1) :
    (dedupByKey (pre ++ k1 :: mid ++ k2 :: post) []).filter
        (fun m => decide (dedupKey m = dedupKey k1)) = [k1] := by
  have hkey : dedupKey k2 = dedupKey k1 := by
    unfold dedupKey
    rw [hname, hdate, hsport, htype, hprop1, hprop2]
  rw [dedupByKey_filter, if_neg (List.not_mem_nil _)]
  have h1 : List.find? (fun m => decide (dedupKey m = dedupKey k1)) pre = none :=
    List.find?_eq_none.mpr fun x hx => by simpa using hfirst x hx
  simp [List.find?_append, h1]

/-- Witness for the deduplication theorem: of the two concrete Kalshi
markets for the Lakers–Celtics game with inverted prices, only the
first survives. -/
theorem kalshi_dedup_first_seen_wins_witness :
    (dedupByKey ([] ++ cexKalshiA :: [] ++ cexKalshiB :: []) []).filter
        (fun m => decide (dedupKey m = dedupKey cexKalshiA)) = [cexKalshiA] :=
  kalshi_dedup_first_seen_wins [] [] [] cexKalshiA cexKalshiB
    (by decide) (by decide) (by decide) (by decide) (by decide) (by decide)
    ⟨rfl, rfl⟩ (by intro m hm; cases hm)

/-- Every Kalshi market returned by `findKalshi` carries the requested
key and an unclaimed id. -/
theorem findKalshi_eq_some (polyKey : String) (used : List String) :
    ∀ (ks : List MarketItem) (k : MarketItem),
      findKalshi polyKey used ks = some k → matchKey k = polyKey ∧ k.id ∉ used
  | [], k => by simp [findKalshi]
  | x :: xs, k => by
    by_cases hx : matchKey x = polyKey ∧ x.id ∉ used
    · rw [findKalshi, if_pos hx]
      intro he
      cases he
      exact hx
    · rw [findKalshi, if_neg hx]
      exact findKalshi_eq_some polyKey used xs k

/-- Structural facts about the first loop of the matching pass: the
rows carry exactly the input Polymarket markets in order, every row has
a Polymarket side, and the claimed Kalshi ids are pairwise distinct and
disjoint from the ids already claimed. -/
theorem buildRows_spec (ks : List MarketItem) :
    ∀ (ps : List MarketItem) (used : List String),
      ((buildRows ks ps used).1.filterMap (fun r => r.polymarket) = ps)
      ∧ (∀ r ∈ (buildRows ks ps used).1, r.polymarket.isSome = true)
      ∧ (kalshiIds (buildRows ks ps used).1).Nodup
      ∧ (∀ i ∈ kalshiIds (buildRows ks ps used).1, i ∉ used)
  | [], used => by simp [buildRows, kalshiIds]
  | poly :: polys, used => by
    have hunfold : buildRows ks (poly :: polys) used =
        (polyRow poly (findKalshi (matchKey poly) used ks)
            :: (buildRows ks polys
                (usedAfter used (findKalshi (matchKey poly) used ks))).1,
          (buildRows ks polys
            (usedAfter used (findKalshi (matchKey poly) used ks))).2) := rfl
    rw [hunfold]
    cases hmk : findKalshi (matchKey poly) used ks with
    | none =>
      obtain ⟨ih1, ih2, ih3, ih4⟩ := buildRows_spec ks polys (usedAfter used none)
      refine ⟨?_, ?_, ?_, ?_⟩
      · simp only [List.filterMap_cons, polyRow]
        rw [ih1]
      · intro r hr
        rcases List.mem_cons.mp hr with rfl | hr'
        · rfl
        · exact ih2 r hr'
      · simpa [kalshiIds, List.filterMap_cons, polyRow] using ih3
      · intro i hi
        have hi' : i ∈ kalshiIds (buildRows ks polys (usedAfter used none)).1 := by
          simpa [kalshiIds, List.filterMap_cons, polyRow] using hi
        exact ih4 i hi'
    | some k =>
      obtain ⟨hkk, hkid⟩ := findKalshi_eq_some (matchKey poly) used ks k hmk
      obtain ⟨ih1, ih2, ih3, ih4⟩ := buildRows_spec ks polys (usedAfter used (some k))
      refine ⟨?_, ?_, ?_, ?_⟩
      · simp only [List.filterMap_cons, polyRow]
        rw [ih1]
      · intro r hr
        rcases List.mem_cons.mp hr with rfl | hr'
        · rfl
        · exact ih2 r hr'
      · have hk1 : kalshiIds (polyRow poly (some k)
            :: (buildRows ks polys (usedAfter used (some k))).1)
            = k.id :: kalshiIds (buildRows ks polys (usedAfter used (some k))).1 := by
          simp [kalshiIds, List.filterMap_cons, polyRow]
        rw [hk1, List.nodup_cons]
        refine ⟨fun hmem => ?_, ih3⟩
        exact (ih4 k.id hmem) (List.mem_cons_self _ _)
      · intro i hi
        have hk1 : kalshiIds (polyRow poly (some k)
            :: (buildRows ks polys (usedAfter used (some k))).1)
            = k.id :: kalshiIds (buildRows ks polys (usedAfter used (some k))).1 := by
          simp [kalshiIds, List.filterMap_cons, polyRow]
        rw [hk1] at hi
        rcases List.mem_cons.mp hi with rfl | hi'
        · exact hkid
        · intro hws
          exact (ih4 i hi') (List.mem_cons_of_mem _ hws)

/-- The Polymarket sides of the matched pairs form a sublist of the
Polymarket sides of the rows. -/
theorem matchedPairs_fst_sublist :
    ∀ rows : List UnifiedMarket,
      List.Sublist ((matchedPairs rows).map Prod.fst)
        (rows.filterMap (fun r => r.polymarket))
  | [] => by simp [matchedPairs]
  | r :: rows => by
    cases hp : r.polymarket with
    | none =>
      cases hk : r.kalshi <;>
        simpa [matchedPairs, List.filterMap_cons, hp, hk]
          using matchedPairs_fst_sublist rows
    | some p =>
      cases hk : r.kalshi with
      | none =>
        simp only [matchedPairs, List.filterMap_cons, hp, hk]
        exact List.Sublist.cons p (matchedPairs_fst_sublist rows)
      | some k =>
        simp only [matchedPairs, List.filterMap_cons, hp, hk, List.map_cons]
        exact List.Sublist.cons₂ p (matchedPairs_fst_sublist rows)

/-- When every row has a Polymarket side, the Kalshi ids of the matched
pairs are exactly the claimed Kalshi ids of the rows. -/
theorem matchedPairs_snd_ids :
    ∀ rows : List UnifiedMarket, (∀ r ∈ rows, r.polymarket.isSome = true) →
      (matchedPairs rows).map (fun pr => pr.2.id) = kalshiIds rows
  | [], _ => rfl
  | r :: rows, h => by
    have hr : r.polymarket.isSome = true := h r (List.mem_cons_self _ _)
    obtain ⟨p, hp⟩ := Option.isSome_iff_exists.mp hr
    have hrest := matchedPairs_snd_ids rows (fun x hx => h x (List.mem_cons_of_mem _ hx))
    cases hk : r.kalshi with
    | none => simpa [matchedPairs, kalshiIds, List.filterMap_cons, hp, hk] using hrest
    | some k => simpa [matchedPairs, kalshiIds, List.filterMap_cons, hp, hk] using hrest

/-- Rows of unmatched Kalshi markets contribute no matched pairs. -/
theorem matchedPairs_kalshiOnly (l : List MarketItem) :
    matchedPairs (l.map kalshiOnlyRow) = [] := by
  induction l with
  | nil => rfl
  | cons k ksl ih =>
    rw [List.map_cons]
    simp only [matchedPairs, kalshiOnlyRow, List.filterMap_cons] at ih ⊢
    exact ih

/-- A permutation of rows permutes the matched pairs. -/
theorem matchedPairs_perm {l₁ l₂ : List UnifiedMarket} (h : List.Perm l₁ l₂) :
    List.Perm (matchedPairs l₁) (matchedPairs l₂) :=
  List.Perm.filterMap _ h

/-- Matched pairs split over an append of row lists. -/
theorem matchedPairs_append (l₁ l₂ : List UnifiedMarket) :
    matchedPairs (l₁ ++ l₂) = matchedPairs l₁ ++ matchedPairs l₂ :=
  List.filterMap_append l₁ l₂ _

/-- Core one-to-one property of the matching pass, for any deduplicated
catalogs with pairwise-distinct Polymarket entries. -/
theorem pairs_nodup_core (dp dk : List MarketItem) (hdp : dp.Nodup) :
    ((matchedPairs (sortBy unifiedLE ((buildRows dk dp []).1
        ++ ((dk.filter (fun k => decide (k.id ∉ (buildRows dk dp []).2))).map
            kalshiOnlyRow)))).map Prod.fst).Nodup
    ∧ ((matchedPairs (sortBy unifiedLE ((buildRows dk dp []).1
        ++ ((dk.filter (fun k => decide (k.id ∉ (buildRows dk dp []).2))).map
            kalshiOnlyRow)))).map Prod.snd).Nodup := by
  obtain ⟨h1, h2, h3, _h4⟩ := buildRows_spec dk dp []
  have hperm : List.Perm
      (matchedPairs (sortBy unifiedLE ((buildRows dk dp []).1
        ++ ((dk.filter (fun k => decide (k.id ∉ (buildRows dk dp []).2))).map
            kalshiOnlyRow))))
      (matchedPairs (buildRows dk dp []).1) := by
    have hp := matchedPairs_perm (sortBy_perm unifiedLE
      ((buildRows dk dp []).1
        ++ ((dk.filter (fun k => decide (k.id ∉ (buildRows dk dp []).2))).map
            kalshiOnlyRow)))
    rwa [matchedPairs_append, matchedPairs_kalshiOnly, List.append_nil] at hp
  have hfst : ((matchedPairs (buildRows dk dp []).1).map Prod.fst).Nodup := by
    have hsub := matchedPairs_fst_sublist (buildRows dk dp []).1
    rw [h1] at hsub
    exact hsub.nodup hdp
  have hsnd : ((matchedPairs (buildRows dk dp []).1).map Prod.snd).Nodup := by
    have hids : (matchedPairs (buildRows dk dp []).1).map (fun pr => pr.2.id)
        = kalshiIds (buildRows dk dp []).1 := matchedPairs_snd_ids _ h2
    have hnd : ((matchedPairs (buildRows dk dp []).1).map (fun pr => pr.2.id)).Nodup := by
      rw [hids]; exact h3
    have hmm : (matchedPairs (buildRows dk dp []).1).map (fun pr => pr.2.id)
        = ((matchedPairs (buildRows dk dp []).1).map Prod.snd).map (fun k => k.id) := by
      rw [List.map_map]
      rfl
    rw [hmm] at hnd
    exact List.Nodup.of_map _ hnd
  exact ⟨((hperm.map Prod.fst).nodup_iff).mpr hfst,
    ((hperm.map Prod.snd).nodup_iff).mpr hsnd⟩

/-- C5: matching is one-to-one — in the unified table built from any
two catalogs (for any tab), no Polymarket market and no Kalshi market
occurs in more than one matched pair of the output. -/
theorem matching_one_to_one (f : MarketTypeFilter)
    (polyMarkets kalshiMarkets : List MarketItem) :
    ((matchedPairs (unifiedMarketsTable f polyMarkets kalshiMarkets)).map Prod.fst).Nodup
    ∧ ((matchedPairs (unifiedMarketsTable f polyMarkets kalshiMarkets)).map Prod.snd).Nodup :=
  pairs_nodup_core (dedupByKey (polyMarkets.filter (matchesMarketType f)) [])
    (dedupByKey (kalshiMarkets.filter (matchesMarketType f)) [])
    (dedupByKey_nodup _)

/-- C8: matching is deterministic — identical input catalogs (same
markets, same order, same tab) produce identical unified tables and
hence identical matched-pair lists. -/
theorem matching_deterministic (f g : MarketTypeFilter)
    (pa pb qa qb : List MarketItem)
    (hf : f = g) (ha : pa = qa) (hb : pb = qb) :
    unifiedMarketsTable f pa pb = unifiedMarketsTable g qa qb
    ∧ matchedPairs (unifiedMarketsTable f pa pb)
      = matchedPairs (unifiedMarketsTable g qa qb) := by
  subst hf; subst ha; subst hb
  exact ⟨rfl, rfl⟩

/-- Witness for determinism on a concrete pair of catalogs. -/
theorem matching_deterministic_witness :
    unifiedMarketsTable MarketTypeFilter.moneyline [cexPolyA] [cexKalshiA, cexKalshiB]
        = unifiedMarketsTable MarketTypeFilter.moneyline [cexPolyA] [cexKalshiA, cexKalshiB]
    ∧ matchedPairs (unifiedMarketsTable MarketTypeFilter.moneyline
          [cexPolyA] [cexKalshiA, cexKalshiB])
        = matchedPairs (unifiedMarketsTable MarketTypeFilter.moneyline
          [cexPolyA] [cexKalshiA, cexKalshiB]) :=
  matching_deterministic _ _ _ _ _ _ rfl rfl rfl

/-- The search predicate unfolded into its disjuncts. -/
theorem oppMatchesSearch_iff (q : String) (o : ApiOpportunity) :
    oppMatchesSearch q o = true ↔
      (q = "" ∨
        lcIncludes o.polymarket.question (lowerStr q) = true ∨
        lcIncludes o.kalshi.question (lowerStr q) = true ∨
        lcIncludes o.kalshi.id (lowerStr q) = true ∨
        lcIncludes o.league (lowerStr q) = true ∨
        (∃ t, o.team = some t ∧ lcIncludes t (lowerStr q) = true)) := by
  by_cases hq : q = ""
  · simp [oppMatchesSearch, hq]
  · rw [oppMatchesSearch, if_neg hq]
    cases ht : o.team with
    | none =>
      simp [hq, ht, Bool.or_eq_true]
      tauto
    | some t =>
      simp [hq, ht, Bool.or_eq_true]
      tauto

/-- C9 (amended): the search filter retains an opportunity exactly when
the query is empty or occurs case-insensitively in the Polymarket
question, the Kalshi question, the Kalshi market id, the league, or the
team — one field more (the Kalshi id) than the spec lists. -/
theorem search_filter_mem_iff (q : String) (opps : List ApiOpportunity)
    (o : ApiOpportunity) :
    o ∈ filteredOpportunities q opps ↔
      o ∈ opps ∧ (q = "" ∨
        lcIncludes o.polymarket.question (lowerStr q) = true ∨
        lcIncludes o.kalshi.question (lowerStr q) = true ∨
        lcIncludes o.kalshi.id (lowerStr q) = true ∨
        lcIncludes o.league (lowerStr q) = true ∨
        (∃ t, o.team = some t ∧ lcIncludes t (lowerStr q) = true)) := by
  rw [filteredOpportunities, List.mem_filter, oppMatchesSearch_iff]

/-- C9 counterexample: the query KXNBA retains the concrete opportunity
because it occurs in the Kalshi market id, although it occurs in none
of the fields the spec's description lists (titles, league, team). -/
theorem search_filter_uses_kalshi_id_cex :
    filteredOpportunities "KXNBA" [cexSearchOpp] = [cexSearchOpp]
    ∧ specSearchMatches "KXNBA" cexSearchOpp = false := by
  constructor
  · decide
  · decide
